import Mathlib

/-!
Verification development for the Cvent photo-downloader core: the task data
model, the name normalizer, the filter engine, the stats aggregator, the
bounded-concurrency download scheduler and the export assembler, shallowly
embedded from the TypeScript sources (`src/App.tsx`, `src/types.ts`, and the
utility module), with theorems settling the specified properties.

Conventions of the embedding:
* Calendar instants (`Date` values) are integers counting milliseconds.
* A fetched body (`Blob`) is its MIME type string and byte size.
* The effect of `fetch` is an oracle value (`FetchResult`): either a rejected
  promise carrying a message, or a response with `ok` flag, HTTP status and
  body metadata.
* React `setTasks` updates are full-collection `List.map` replacements, as in
  the source, and the scheduler is modelled both as a deterministic fold over
  the start-of-run snapshot (with user toggles interleaved) and as a
  small-step worker-pool transition system for the concurrency bound.
-/

/-- Task lifecycle states, from `ImageTask.status` in `src/types.ts`. -/
inductive Status where
  | pending
  | downloading
  | completed
  | failed
  | skipped
deriving DecidableEq, Repr

/-- A fetched binary body: MIME type and byte length (`Blob` at the interface
boundary of the fetch facility). -/
structure Blob where
  mimeType : String
  size : Nat
deriving DecidableEq, Repr

/-- One unit of work, from `ImageTask` in `src/types.ts`. -/
structure ImageTask where
  id : String
  sheet : String
  fullName : String
  url : String
  filename : String
  registrationDate : Option Int
  isSelected : Bool
  status : Status
  error : Option String
  blob : Option Blob
deriving DecidableEq, Repr

/-! ### JS string primitives, embedded structurally over character lists so
that every definition evaluates by kernel reduction. -/

/-- JS `str.trim()`: drop whitespace from both ends. -/
def jsTrim (s : String) : String :=
  String.mk
    (((s.toList.dropWhile Char.isWhitespace).reverse.dropWhile
      Char.isWhitespace).reverse)

/-- Split a character list at every occurrence of a separator character;
like JS `str.split(sep)`, the result always has one more piece than there
are separator occurrences. -/
def splitOnChar (sep : Char) : List Char → List (List Char)
  | [] => [[]]
  | c :: cs =>
      let rest := splitOnChar sep cs
      if c = sep then [] :: rest
      else (c :: rest.headD []) :: rest.tailD []

/-- Split a character list at every character satisfying `p`. -/
def splitPred (p : Char → Bool) : List Char → List (List Char)
  | [] => [[]]
  | c :: cs =>
      let rest := splitPred p cs
      if p c then [] :: rest
      else (c :: rest.headD []) :: rest.tailD []

/-- JS `str.startsWith(pat)`. -/
def jsStartsWith (s pat : String) : Bool :=
  pat.toList.isPrefixOf s.toList

/-- JS `s.includes(pat)`: `pat` occurs as a contiguous substring. -/
def jsIncludes (s pat : String) : Bool :=
  s.toList.tails.any fun suffix => pat.toList.isPrefixOf suffix

/-! ## Name normalizer (`normalizeName` in the utility module) -/

/-- JS `str.replace(/\W+/g, '')`: keep exactly the word characters
(ASCII alphanumerics and the underscore). -/
def stripNonWord (s : String) : String :=
  String.mk (s.toList.filter fun c => c.isAlphanum || c = '_')

/-- JS `a || b` on strings: the empty string is falsy. -/
def jsOr (a b : String) : String :=
  if a = "" then b else a

/-- Embedding of `last.replace(/\W+/g, '') || "Unknown"` from the source. -/
def safeHalf (s : String) : String :=
  jsOr (stripNonWord s) "Unknown"

/-- Function `normalizeName` from the utility module: map a display name to a
`Last.First` filename stem. -/
def normalizeName (fullName : String) : String :=
  let name := jsTrim fullName
  if name.toList.contains ',' then
    let parts := (splitOnChar ',' name.toList).map fun l => jsTrim (String.mk l)
    let last := parts.headD ""
    let first := jsOr (parts.getD 1 "") ""
    safeHalf last ++ "." ++ safeHalf first
  else
    let parts :=
      ((splitPred Char.isWhitespace name.toList).map String.mk).filter (· ≠ "")
    if parts.length < 2 then
      jsOr (stripNonWord name) "Unknown.Unknown"
    else
      safeHalf (parts.getLastD "") ++ "." ++ safeHalf (parts.headD "")

/-- The single-token rule exactly as the claim words it: strip all
NON-ALPHANUMERIC characters (the underscore is not alphanumeric) from the
whole string, falling back to `Unknown.Unknown` when empty. -/
def claimSingleTokenStem (s : String) : String :=
  jsOr (String.mk (s.toList.filter Char.isAlphanum)) "Unknown.Unknown"

/-- Everything strictly before the first occurrence of `sep`; the whole list
when `sep` does not occur. -/
def beforeChar (sep : Char) : List Char → List Char
  | [] => []
  | c :: cs => if c = sep then [] else c :: beforeChar sep cs

/-- Everything strictly after the first occurrence of `sep`; empty when
`sep` does not occur. -/
def afterChar (sep : Char) : List Char → List Char
  | [] => []
  | c :: cs => if c = sep then cs else afterChar sep cs

/-- The comma rule exactly as the claim words it: the family name is the
portion before the comma and the given name is the (entire) portion after
it, each trimmed and then stripped of all NON-ALPHANUMERIC characters, with
`Unknown` substituted for an empty half. -/
def claimCommaStem (s : String) : String :=
  let name := jsTrim s
  let family := jsTrim (String.mk (beforeChar ',' name.toList))
  let given := jsTrim (String.mk (afterChar ',' name.toList))
  jsOr (String.mk (family.toList.filter Char.isAlphanum)) "Unknown"
    ++ "." ++ jsOr (String.mk (given.toList.filter Char.isAlphanum)) "Unknown"

/-- The amended normalizer specification, amended at exactly the two points
the counterexamples force: every stripping step removes NON-WORD characters
(keeping ASCII alphanumerics and the underscore, JS `\W`) rather than all
non-alphanumerics, and in the comma form the given name is the text between
the first and the second comma (not the entire remainder after the first
comma), since the code splits on every comma and keeps only the second
segment.  Otherwise as the claim says: whitespace tokens give
given-first/family-last; fewer than two tokens strip the whole string with
the `Unknown.Unknown` fallback; each half gets `Unknown` substituted when it
strips to empty. -/
def specNormalizeName (displayName : String) : String :=
  let name := jsTrim displayName
  if name.toList.contains ',' then
    let commaSegs := (splitOnChar ',' name.toList).map fun l => jsTrim (String.mk l)
    let family := commaSegs.headD ""
    let given := commaSegs.getD 1 ""
    safeHalf family ++ "." ++ safeHalf given
  else
    let tokens :=
      ((splitPred Char.isWhitespace name.toList).map String.mk).filter
        fun t => t ≠ ""
    if 2 ≤ tokens.length then
      safeHalf (tokens.getLastD "") ++ "." ++ safeHalf (tokens.headD "")
    else
      jsOr (stripNonWord name) "Unknown.Unknown"

/-! ## Stats aggregator (`stats` memo in `src/App.tsx`) -/

/-- Derived counts, from `ProcessingStats` in `src/types.ts`. -/
structure ProcessingStats where
  total : Nat
  completed : Nat
  failed : Nat
  skipped : Nat
  pending : Nat
  selected : Nat
deriving DecidableEq, Repr

/-- The stats reduction from `src/App.tsx` (`useMemo` at lines 106-115):
`pending` counts pending AND selected tasks; the status counts ignore
selection. -/
def computeStats (tasks : List ImageTask) : ProcessingStats :=
  { total := tasks.length
    completed := (tasks.filter fun t => decide (t.status = Status.completed)).length
    failed := (tasks.filter fun t => decide (t.status = Status.failed)).length
    skipped := (tasks.filter fun t => decide (t.status = Status.skipped)).length
    pending := (tasks.filter fun t =>
      decide (t.status = Status.pending) && t.isSelected).length
    selected := (tasks.filter fun t => t.isSelected).length }

/-! ## Download of one task (`downloadImage` in `src/App.tsx`) -/

/-- Outcome of the fetch collaborator for one URL: a rejection with a message
(network or cross-origin failure), or a response with its `ok` flag, HTTP
status code and body metadata. -/
inductive FetchResult where
  | netError (msg : String)
  | response (ok : Bool) (statusCode : Nat) (bodyType : String) (bodySize : Nat)
deriving DecidableEq, Repr

/-- Function `downloadImage` from `src/App.tsx` (lines 253-263): always resolves to a
task record; a thrown error is caught and folded into a `failed` record. -/
def downloadImage (task : ImageTask) (outcome : FetchResult) : ImageTask :=
  match outcome with
  | .netError msg =>
      { task with
        status := Status.failed
        error := some (if jsIncludes msg "Failed to fetch"
                       then "CORS/Network Error" else msg) }
  | .response ok statusCode bodyType bodySize =>
      if !ok then
        { task with
          status := Status.failed
          error := some ("HTTP " ++ toString statusCode) }
      else if !(jsStartsWith bodyType "image/") && bodySize < 100 then
        { task with
          status := Status.failed
          error := some "Invalid image" }
      else
        { task with
          status := Status.completed
          blob := some ⟨bodyType, bodySize⟩ }

/-! ## Filter engine (filter `useEffect` in `src/App.tsx`, lines 63-93) -/

/-- Embedding of `end.setHours(23, 59, 59, 999)`: extend a day-start instant to the last
millisecond of that calendar day. -/
def endOfDay (dayStart : Int) : Int :=
  dayStart + 86400000 - 1

/-- The per-task body of the filter effect's `map`: recompute `isSelected`
from the sheet filter and the date bounds, leaving everything else alone. -/
def filterElem (start endv : Option Int) (sheets : List String)
    (t : ImageTask) : ImageTask :=
  let sheetMatch : Bool := sheets.contains t.sheet
  let isMatch : Bool :=
    match t.registrationDate with
    | some d =>
        sheetMatch && !(start.any fun s => decide (d < s))
          && !(endv.any fun e => decide (e < d))
    | none =>
        sheetMatch && !(start.isSome || endv.isSome)
  { t with isSelected := isMatch }

/-- The filter effect: compute `start` and the end-of-day-extended `end`
bound, then map the recomputation over the collection. -/
def applyFilter (startMs endDayMs : Option Int) (sheets : List String)
    (tasks : List ImageTask) : List ImageTask :=
  let start := startMs
  let endv := endDayMs.map endOfDay
  tasks.map (filterElem start endv sheets)

/-- Predicate `dateMatches` exactly as the claim words it: a dateless task matches only
when neither bound is configured; a dated task matches iff it is on or after
`startDate` (when set) and at or before 23:59:59.999 of `endDate` (when
set). -/
def dateMatchesSpec (startMs endDayMs : Option Int) (reg : Option Int) : Bool :=
  match reg with
  | none => startMs.isNone && endDayMs.isNone
  | some d =>
      (match startMs with
       | some s => decide (s ≤ d)
       | none => true)
      && (match endDayMs with
          | some e => decide (d ≤ e + 86399999)
          | none => true)

/-! ## Selection toggles (`toggleTaskSelection`, `toggleAllTasks`) -/

/-- Per-element body of `toggleTaskSelection`. -/
def elemToggle (i : String) (t : ImageTask) : ImageTask :=
  if t.id = i then { t with isSelected := !t.isSelected } else t

/-- Handler `toggleTaskSelection` from `src/App.tsx` (line 195-197). -/
def toggleTask (i : String) (tasks : List ImageTask) : List ImageTask :=
  tasks.map (elemToggle i)

/-- Handler `toggleAllTasks` from `src/App.tsx` (line 199-201). -/
def toggleAllTasks (b : Bool) (tasks : List ImageTask) : List ImageTask :=
  tasks.map fun t => { t with isSelected := b }

/-! ## Task creation (`handleFileUpload` in `src/App.tsx`, lines 138-157) -/

/-- A raw spreadsheet row at the ingestion boundary; the registration cell is
already run through `parseExcelDate` (absent when missing or unparseable). -/
structure ExcelRow where
  fullName : Option String
  imageUrl : Option String
  registrationDate : Option Int
deriving DecidableEq, Repr

/-- JS truthiness of an optional cell value: present and not the empty
string. -/
def truthyCell : Option String → Bool
  | none => false
  | some s => decide (s ≠ "")

/-- One task pushed by `handleFileUpload` for a row with both required
fields; `now` stands for the `Date.now()` component of the id. -/
def mkTask (sheetName : String) (index now : Nat) (fullName url : String)
    (regDate : Option Int) : ImageTask :=
  { id := sheetName ++ "-" ++ toString index ++ "-" ++ toString now
    sheet := sheetName
    fullName := jsTrim fullName
    url := jsTrim url
    filename := normalizeName fullName ++ ".jpg"
    registrationDate := regDate
    isSelected := true
    status := Status.pending
    error := none
    blob := none }

/-- The row loop of `handleFileUpload` over one sheet: rows lacking a truthy
`Full Name` or `Image URL` produce no task. -/
def rowTasks (sheetName : String) (now : Nat) (rows : List ExcelRow) :
    List ImageTask :=
  rows.enum.filterMap fun p =>
    if truthyCell p.2.fullName && truthyCell p.2.imageUrl then
      some (mkTask sheetName p.1 now (p.2.fullName.getD "")
        (p.2.imageUrl.getD "") p.2.registrationDate)
    else
      none

/-! ## The batch run (`startProcessing` in `src/App.tsx`, lines 203-251) -/

/-- The start-of-run snapshot: `tasks.filter(t => t.status === 'pending' &&
t.isSelected)` (line 212). -/
def eligible (tasks : List ImageTask) : List ImageTask :=
  tasks.filter fun t => decide (t.status = Status.pending) && t.isSelected

/-- Per-element body of the outcome write `prev.map(t => t.id === task.id ?
result : t)` (line 229): the whole stored record is replaced by `result`,
which was derived from the snapshot copy of the task. -/
def elemRecord (snap result t : ImageTask) : ImageTask :=
  if t.id = snap.id then result else t

/-- The outcome write itself. -/
def recordOutcome (snap result : ImageTask) (tasks : List ImageTask) :
    List ImageTask :=
  tasks.map (elemRecord snap result)

/-- A burst of user selection toggles hitting the shared collection. -/
def applyToggles (ids : List String) (tasks : List ImageTask) :
    List ImageTask :=
  ids.foldl (fun acc i => toggleTask i acc) tasks

/-- Function `applyToggles`, viewed as acting on one element. -/
def elemToggles (ids : List String) (t : ImageTask) : ImageTask :=
  ids.foldl (fun x i => elemToggle i x) t

/-- The run over the snapshot queue, with an arbitrary burst of user toggles
(`schedule`) interleaved before each outcome write.  The queue argument is
the snapshot taken once at run start; the accumulator is the live shared
collection.  Worker completion order is irrelevant to the final collection
because each snapshot task is dequeued exactly once and outcome writes to
distinct ids commute, so the fold order stands in for every interleaving. -/
def runAux (oracle : ImageTask → FetchResult) :
    List ImageTask → List (List String) → List ImageTask → List ImageTask
  | [], _, curr => curr
  | snap :: rest, schedule, curr =>
      runAux oracle rest schedule.tail
        (recordOutcome snap (downloadImage snap (oracle snap))
          (applyToggles (schedule.headD []) curr))

/-- A full batch run: snapshot the eligible queue from the collection at
start, then drain it while toggles may keep arriving. -/
def runWithToggles (oracle : ImageTask → FetchResult)
    (tasks : List ImageTask) (schedule : List (List String)) :
    List ImageTask :=
  runAux oracle (eligible tasks) schedule tasks

/-- The run, viewed as acting on one element of the shared collection. -/
def elemRun (oracle : ImageTask → FetchResult) :
    List ImageTask → List (List String) → ImageTask → ImageTask
  | [], _, t => t
  | snap :: rest, schedule, t =>
      elemRun oracle rest schedule.tail
        (elemRecord snap (downloadImage snap (oracle snap))
          (elemToggles (schedule.headD []) t))

/-! ## Worker-pool small-step model of the scheduler (lines 215-246) -/

/-- Constant `MAX_CONCURRENT_DOWNLOADS` from `src/App.tsx` line 30. -/
def MAX_CONCURRENT_DOWNLOADS : Nat := 10

/-- What one worker (one `downloadNext` chain) is doing: about to dequeue,
awaiting a fetch for a task, or finished because the queue was empty. -/
inductive WStatus where
  | idle
  | fetching (task : ImageTask)
  | retired
deriving DecidableEq, Repr

/-- A scheduler configuration: the remaining queue, the worker pool, and the
live shared collection receiving outcome writes. -/
structure Sched where
  remaining : List ImageTask
  workers : List WStatus
  coll : List ImageTask
deriving Repr

/-- The initial configuration: `Math.min(MAX_CONCURRENT_DOWNLOADS,
remaining.length)` workers are spawned (line 236), each starting at its
dequeue point, with the snapshot queue untouched. -/
def initSched (k : Nat) (tasks : List ImageTask) : Sched :=
  { remaining := eligible tasks
    workers := List.replicate (min k (eligible tasks).length) WStatus.idle
    coll := tasks }

/-- Is a worker awaiting a fetch (a member of `activeDownloads`)? -/
def isFetching : WStatus → Bool
  | WStatus.fetching _ => true
  | _ => false

/-- The number of fetches in flight at an instant. -/
def inFlight (s : Sched) : Nat :=
  (s.workers.filter isFetching).length

/-- One scheduler transition: an idle worker shifts the queue head and issues
its fetch; a fetching worker's promise settles and the outcome is written to
the shared collection; an idle worker that finds the queue empty returns. -/
inductive SchedStep (oracle : ImageTask → FetchResult) : Sched → Sched → Prop
  | dequeue (s : Sched) (j : Nat) (hj : j < s.workers.length)
      (hidle : s.workers.get ⟨j, hj⟩ = WStatus.idle)
      (t : ImageTask) (rest : List ImageTask)
      (hq : s.remaining = t :: rest) :
      SchedStep oracle s
        { remaining := rest
          workers := s.workers.set j (WStatus.fetching t)
          coll := s.coll }
  | settle (s : Sched) (j : Nat) (hj : j < s.workers.length)
      (t : ImageTask)
      (hfetch : s.workers.get ⟨j, hj⟩ = WStatus.fetching t) :
      SchedStep oracle s
        { remaining := s.remaining
          workers := s.workers.set j WStatus.idle
          coll := recordOutcome t (downloadImage t (oracle t)) s.coll }
  | retire (s : Sched) (j : Nat) (hj : j < s.workers.length)
      (hidle : s.workers.get ⟨j, hj⟩ = WStatus.idle)
      (hq : s.remaining = []) :
      SchedStep oracle s
        { remaining := s.remaining
          workers := s.workers.set j WStatus.retired
          coll := s.coll }

/-- Configurations reachable during a run started with bound `k`. -/
inductive SchedReachable (oracle : ImageTask → FetchResult) (k : Nat)
    (tasks : List ImageTask) : Sched → Prop
  | init : SchedReachable oracle k tasks (initSched k tasks)
  | step {s s' : Sched} : SchedReachable oracle k tasks s →
      SchedStep oracle s s' → SchedReachable oracle k tasks s'

/-! ## Export assembler (`generateZip` in `src/App.tsx`, lines 265-314) -/

/-- One row of `failures_report.csv`, structured; the date column is the
ISO day string, rendered by the `isoDay` collaborator. -/
structure CsvRow where
  sheet : String
  fullName : String
  filename : String
  url : String
  errorStr : String
  dateStr : String
deriving DecidableEq, Repr

/-- The archive: completed payloads filed under their sheet folder, plus the
failure report when any selected task failed. -/
structure ZipArchive where
  images : List (String × String × Blob)
  report : Option (List CsvRow)
deriving DecidableEq, Repr

/-- Function `generateZip`: fails with the `alert` message when no completed task with
a payload exists; otherwise builds the archive.  `isoDay` renders an instant
as `toISOString().split('T')[0]`. -/
def generateZip (isoDay : Int → String) (tasks : List ImageTask) :
    Except String ZipArchive :=
  let completedTasks := tasks.filter fun t =>
    decide (t.status = Status.completed) && t.blob.isSome
  if completedTasks.length = 0 then
    Except.error "No images available to zip."
  else
    let images := completedTasks.filterMap fun t =>
      t.blob.map fun b => (t.sheet, t.filename, b)
    let failedTasks := tasks.filter fun t =>
      decide (t.status = Status.failed) && t.isSelected
    let report :=
      if 0 < failedTasks.length then
        some (failedTasks.map fun t =>
          { sheet := t.sheet
            fullName := t.fullName
            filename := t.filename
            url := t.url
            errorStr := match t.error with
              | some e => e
              | none => "undefined"
            dateStr := match t.registrationDate with
              | some d => isoDay d
              | none => "" } : List CsvRow)
      else none
    Except.ok { images := images, report := report }

/-- The export handler acting on the application state: it reads the task
collection and never writes it (`generateZip` contains no `setTasks`), so the
resulting collection is the input collection. -/
def exportAction (isoDay : Int → String) (tasks : List ImageTask) :
    List ImageTask × Except String ZipArchive :=
  (tasks, generateZip isoDay tasks)

/-! ## The record invariant (spec section 3) -/

/-- Invariant: `payload` set iff completed; `errorDetail` set iff failed. -/
def taskInv (t : ImageTask) : Prop :=
  (t.blob.isSome ↔ t.status = Status.completed)
    ∧ (t.error.isSome ↔ t.status = Status.failed)

instance (t : ImageTask) : Decidable (taskInv t) := by
  unfold taskInv; infer_instance

/-- A concrete collection state: one completed, deselected task.  It is
reachable: the task is created `pending` and selected, a run completes it,
and the user then toggles its selection off (or an active date filter
deselects it). -/
def completedDeselected : ImageTask :=
  { id := "Sheet1-0-0"
    sheet := "Sheet1"
    fullName := "Jane Doe"
    url := "https://example.com/jane.jpg"
    filename := "Doe.Jane.jpg"
    registrationDate := none
    isSelected := false
    status := Status.completed
    error := none
    blob := some ⟨"image/jpeg", 2048⟩ }

/-- A concrete pending, selected, dated task. -/
def samplePending : ImageTask :=
  { id := "Sheet1-1-0"
    sheet := "Sheet1"
    fullName := "John Smith"
    url := "https://example.com/john.jpg"
    filename := "Smith.John.jpg"
    registrationDate := some 1700000000000
    isSelected := true
    status := Status.pending
    error := none
    blob := none }

/-- A concrete failed, selected task. -/
def sampleFailed : ImageTask :=
  { id := "Sheet1-2-0"
    sheet := "Sheet1"
    fullName := "Ann Lee"
    url := "https://example.com/ann.jpg"
    filename := "Lee.Ann.jpg"
    registrationDate := none
    isSelected := true
    status := Status.failed
    error := some "HTTP 404"
    blob := none }

/-- A concrete successful fetch outcome. -/
def fetchOkW : FetchResult :=
  FetchResult.response true 200 "image/jpeg" 500

/-- A concrete fetch oracle: every URL yields `fetchOkW`. -/
def oracleW : ImageTask → FetchResult := fun _ => fetchOkW

/-- A pending, selected task with a chosen id. -/
def pTask (n : String) : ImageTask :=
  { samplePending with id := n }

/-- Five pending, selected tasks. -/
def fiveTasks : List ImageTask :=
  [pTask "p1", pTask "p2", pTask "p3", pTask "p4", pTask "p5"]

/-- The scheduler state after worker 0 dequeues the first of `fiveTasks`
under bound 2. -/
def schedW1 : Sched :=
  { remaining := [pTask "p2", pTask "p3", pTask "p4", pTask "p5"]
    workers := (initSched 2 fiveTasks).workers.set 0
      (WStatus.fetching (pTask "p1"))
    coll := (initSched 2 fiveTasks).coll }

/-- The scheduler state after worker 1 also dequeues: two fetches are now in
flight, the configured maximum for bound 2. -/
def schedW2 : Sched :=
  { remaining := [pTask "p3", pTask "p4", pTask "p5"]
    workers := schedW1.workers.set 1 (WStatus.fetching (pTask "p2"))
    coll := schedW1.coll }

/-! # Theorems -/

/-! ## Shared helper lemmas -/

theorem jsOr_empty_right (a : String) : jsOr a "" = a := by
  unfold jsOr; split_ifs with h <;> simp [h]

theorem filter_length_mono {α : Type} (p q : α → Bool)
    (h : ∀ t, p t = true → q t = true) (l : List α) :
    (l.filter p).length ≤ (l.filter q).length := by
  induction l with
  | nil => simp
  | cons t rest ih =>
      by_cases hp : p t = true
      · have hq := h t hp
        simp only [List.filter_cons, hp, hq, if_true, List.length_cons]
        omega
      · have hp' : p t = false := by revert hp; cases p t <;> simp
        simp only [List.filter_cons, hp', Bool.false_eq_true, if_false]
        cases hq : q t
        · simpa [hq] using ih
        · simp only [hq, if_true, List.length_cons]
          omega

theorem stats_sum_le (l : List ImageTask) :
    (l.filter fun t => decide (t.status = Status.completed)).length
      + (l.filter fun t => decide (t.status = Status.failed)).length
      + (l.filter fun t => decide (t.status = Status.skipped)).length
      + (l.filter fun t =>
          decide (t.status = Status.pending) && t.isSelected).length
      ≤ l.length := by
  induction l with
  | nil => simp
  | cons t rest ih =>
      rcases hs : t.status <;> cases hb : t.isSelected <;>
        simp [List.filter_cons, hs, hb] <;> omega

/-! ## C1 — the stats aggregator bounds -/

/-- C1, counterexample.  The claim asserts `completedCount + failedCount +
skippedCount + pendingSelectedCount <= selectedCount` for every task
collection, but the status counts in `stats` ignore the `isSelected` flag: a
single completed task whose selection has been toggled off yields
`completedCount = 1 > 0 = selectedCount`. -/
theorem stats_claim_counterexample :
    ¬ ((computeStats [completedDeselected]).completed
        + (computeStats [completedDeselected]).failed
        + (computeStats [completedDeselected]).skipped
        + (computeStats [completedDeselected]).pending
        ≤ (computeStats [completedDeselected]).selected) := by
  decide

/-- C1, amended.  For every task collection, the stats satisfy
`completedCount + failedCount + skippedCount + pendingSelectedCount <= total`
and `pendingSelectedCount <= selectedCount <= total`, and `selectedCount`
equals the number of tasks with `selected == true` regardless of their
state. -/
theorem stats_bounds_amended (tasks : List ImageTask) :
    (computeStats tasks).completed + (computeStats tasks).failed
        + (computeStats tasks).skipped + (computeStats tasks).pending
        ≤ (computeStats tasks).total
    ∧ (computeStats tasks).pending ≤ (computeStats tasks).selected
    ∧ (computeStats tasks).selected ≤ (computeStats tasks).total
    ∧ (computeStats tasks).selected = tasks.countP fun t => t.isSelected := by
  refine ⟨?_, ?_, ?_, ?_⟩
  · simpa [computeStats] using stats_sum_le tasks
  · simpa [computeStats] using
      filter_length_mono _ _
        (fun t ht => (Bool.and_eq_true _ _ |>.mp ht).2) tasks
  · simpa [computeStats] using List.length_filter_le (fun t => t.isSelected) tasks
  · simp [computeStats, List.countP_eq_length_filter]

/-! ## C7 — the name normalizer -/

/-- C7, counterexample.  The claim's algorithm fails on the code at two
points.  Stripping: the fewer-than-two-tokens rule is said to strip all
non-alphanumeric characters, which would map the single token `"Jane_Doe"`
to `"JaneDoe"`; the code strips `\W`, which keeps the underscore, so it
returns `"Jane_Doe"`.  Comma form: the given name is said to be the portion
after the comma, which on `"Doe, Jane, Jr"` is `"Jane, Jr"` and yields
`Doe.JaneJr`; the code splits on every comma and keeps only the second
segment, yielding `Doe.Jane`. -/
theorem normalizeName_claim_counterexample :
    (normalizeName "Jane_Doe" = "Jane_Doe"
      ∧ claimSingleTokenStem "Jane_Doe" = "JaneDoe"
      ∧ normalizeName "Jane_Doe" ≠ claimSingleTokenStem "Jane_Doe")
    ∧ (normalizeName "Doe, Jane, Jr" = "Doe.Jane"
      ∧ claimCommaStem "Doe, Jane, Jr" = "Doe.JaneJr"
      ∧ normalizeName "Doe, Jane, Jr" ≠ claimCommaStem "Doe, Jane, Jr") := by
  refine ⟨⟨by decide, by decide, by decide⟩, by decide, by decide, by decide⟩

/-- C7, amended.  The normalizer implements the claimed algorithm amended at
the two refuted points: every stripping step removes non-word characters
(ASCII alphanumerics and the underscore are kept, JS `\W`) rather than all
non-alphanumerics, and in the comma form the given name is the text between
the first and the second comma rather than the entire remainder after the
first comma.  So amended, the code agrees with the spec-worded algorithm on
every input, and in particular maps `"Doe, Jane"` to `Doe.Jane`,
`"Jane Doe"` to `Doe.Jane`, `"Madonna"` to `Madonna`, `""` to
`Unknown.Unknown`, and `"Jane van Doe"` to `Doe.Jane`. -/
theorem normalizeName_amended_spec :
    (∀ s : String, normalizeName s = specNormalizeName s)
      ∧ normalizeName "Doe, Jane" = "Doe.Jane"
      ∧ normalizeName "Jane Doe" = "Doe.Jane"
      ∧ normalizeName "Madonna" = "Madonna"
      ∧ normalizeName "" = "Unknown.Unknown"
      ∧ normalizeName "Jane van Doe" = "Doe.Jane" := by
  refine ⟨?_, by decide, by decide, by decide, by decide, by decide⟩
  intro s
  unfold normalizeName specNormalizeName
  cases h : (jsTrim s).toList.contains ',' <;> simp only [h, if_true,
    Bool.false_eq_true, if_false]
  · split_ifs <;> first | rfl | omega
  · rw [jsOr_empty_right]

/-! ## C4 — per-task download outcome and error containment -/

theorem startBound_decide (d s : Int) : (!decide (d < s)) = decide (s ≤ d) := by
  by_cases h : d < s
  · simp [h, show ¬ s ≤ d by omega]
  · simp [h, show s ≤ d by omega]

theorem endBound_decide (d e : Int) :
    (!decide (endOfDay e < d)) = decide (d ≤ e + 86399999) := by
  unfold endOfDay
  by_cases h : e + 86400000 - 1 < d
  · simp [h, show ¬ d ≤ e + 86399999 by omega]
  · simp [h, show d ≤ e + 86399999 by omega]

theorem endOfDay_eq (e : Int) : endOfDay e = e + 86399999 := by
  unfold endOfDay; omega

/-- C4, confirmed.  `downloadImage` always resolves to a task record (it is a
total function of the task and the fetch outcome — every fault is caught):
the result is `completed` with the payload set exactly when the response is
`ok` and the content is valid (recognized image content type or non-trivial
content length), and otherwise `failed` with a non-empty cause that
distinguishes HTTP-status failures (`HTTP <code>`) from content-validation
failures (`Invalid image`) from network/cross-origin failures (the transport
message, mapped to `CORS/Network Error` when it is the browser's
`Failed to fetch`); in the network case non-emptiness holds whenever the
transport's own message is non-empty. -/
theorem downloadImage_outcome (t : ImageTask) (f : FetchResult) :
    ((downloadImage t f).status = Status.completed
        ∨ (downloadImage t f).status = Status.failed)
    ∧ (∀ ok code bt bs, f = FetchResult.response ok code bt bs →
        ok = true → (jsStartsWith bt "image/" = true ∨ 100 ≤ bs) →
        (downloadImage t f).status = Status.completed
          ∧ (downloadImage t f).blob = some ⟨bt, bs⟩)
    ∧ (∀ ok code bt bs, f = FetchResult.response ok code bt bs →
        ok = false →
        (downloadImage t f).status = Status.failed
          ∧ (downloadImage t f).error = some ("HTTP " ++ toString code)
          ∧ ("HTTP " ++ toString code) ≠ "")
    ∧ (∀ ok code bt bs, f = FetchResult.response ok code bt bs →
        ok = true → ¬ (jsStartsWith bt "image/" = true ∨ 100 ≤ bs) →
        (downloadImage t f).status = Status.failed
          ∧ (downloadImage t f).error = some "Invalid image"
          ∧ "Invalid image" ≠ "")
    ∧ (∀ msg, f = FetchResult.netError msg →
        (downloadImage t f).status = Status.failed
          ∧ ∃ e, (downloadImage t f).error = some e
            ∧ (msg ≠ "" → e ≠ "")
            ∧ (jsIncludes msg "Failed to fetch" = true →
                e = "CORS/Network Error")) := by
  refine ⟨?_, ?_, ?_, ?_, ?_⟩
  · rcases f with msg | ⟨ok, code, bt, bs⟩
    · right; rfl
    · simp only [downloadImage]
      split_ifs <;> simp
  · rintro ok code bt bs rfl rfl hvalid
    have hcond : (!(jsStartsWith bt "image/") && decide (bs < 100)) = false := by
      rcases hvalid with hv | hv
      · simp [hv]
      · simp [show ¬ bs < 100 by omega]
    unfold downloadImage
    simp [hcond]
  · rintro ok code bt bs rfl rfl
    refine ⟨by rfl, by rfl, ?_⟩
    intro hcontra
    have := congrArg String.length hcontra
    simp [String.length_append] at this
    exact absurd this.1 (by decide)
  · rintro ok code bt bs rfl rfl hinvalid
    push_neg at hinvalid
    have hcond : (!(jsStartsWith bt "image/") && decide (bs < 100)) = true := by
      have h1 : jsStartsWith bt "image/" = false := by
        rcases h : jsStartsWith bt "image/"
        · rfl
        · exact absurd h hinvalid.1
      simp [h1, show bs < 100 by omega]
    unfold downloadImage
    refine ⟨by simp [hcond], by simp [hcond], by decide⟩
  · rintro msg rfl
    refine ⟨rfl, if jsIncludes msg "Failed to fetch" then "CORS/Network Error"
      else msg, rfl, ?_, ?_⟩
    · intro hmsg
      split_ifs with h
      · decide
      · exact hmsg
    · intro h
      simp [h]

/-- C4, witness: a network rejection carrying the browser's
`Failed to fetch` message yields a failed record whose cause is the
distinguished `CORS/Network Error` string. -/
theorem downloadImage_outcome_witness :
    (downloadImage samplePending
        (FetchResult.netError "TypeError: Failed to fetch")).status
      = Status.failed
    ∧ (downloadImage samplePending
        (FetchResult.netError "TypeError: Failed to fetch")).error
      = some "CORS/Network Error" := by
  have h := (downloadImage_outcome samplePending
    (FetchResult.netError "TypeError: Failed to fetch")).2.2.2.2
    "TypeError: Failed to fetch" rfl
  obtain ⟨hst, e, he, _, hcors⟩ := h
  exact ⟨hst, by rw [he, hcors (by decide)]⟩

/-! ## C5 — filter selection semantics -/

theorem filterElem_isSelected (startMs endDayMs : Option Int)
    (sheets : List String) (t : ImageTask) :
    (filterElem startMs (endDayMs.map endOfDay) sheets t).isSelected
      = (sheets.contains t.sheet
          && dateMatchesSpec startMs endDayMs t.registrationDate) := by
  unfold filterElem dateMatchesSpec
  rcases hr : t.registrationDate with _ | d <;>
    rcases startMs with _ | s <;> rcases endDayMs with _ | e <;>
      simp [Option.any, startBound_decide, endBound_decide, endOfDay_eq,
        Bool.and_assoc]

/-- C5, confirmed.  After applying a filter specification, each task's
`selected` flag equals group membership AND the claimed `dateMatches`
(dateless tasks pass only with no bounds configured; dated tasks pass iff on
or after `startDate` and at or before 23:59:59.999 of `endDate`); a task
dated exactly on `endDate` is included and one dated one millisecond past
end-of-day is excluded. -/
theorem applyFilter_selection_spec :
    (∀ (startMs endDayMs : Option Int) (sheets : List String)
        (tasks : List ImageTask),
        List.Forall₂ (fun t u => u.isSelected =
            (sheets.contains t.sheet
              && dateMatchesSpec startMs endDayMs t.registrationDate))
          tasks (applyFilter startMs endDayMs sheets tasks))
    ∧ (∀ (e : Int) (sheets : List String) (t : ImageTask),
        t.registrationDate = some e → sheets.contains t.sheet = true →
        ∀ u ∈ applyFilter none (some e) sheets [t], u.isSelected = true)
    ∧ (∀ (e : Int) (sheets : List String) (t : ImageTask),
        t.registrationDate = some (e + 86400000) →
        ∀ u ∈ applyFilter none (some e) sheets [t],
          u.isSelected = false) := by
  have hall : ∀ (startMs endDayMs : Option Int) (sheets : List String)
      (tasks : List ImageTask),
      List.Forall₂ (fun t u => u.isSelected =
          (sheets.contains t.sheet
            && dateMatchesSpec startMs endDayMs t.registrationDate))
        tasks (applyFilter startMs endDayMs sheets tasks) := by
    intro startMs endDayMs sheets tasks
    unfold applyFilter
    induction tasks with
    | nil => exact List.Forall₂.nil
    | cons t rest ih =>
        exact List.Forall₂.cons (filterElem_isSelected startMs endDayMs sheets t) ih
  refine ⟨hall, ?_, ?_⟩
  · intro e sheets t hreg hsheet u hu
    have hu' : u = filterElem none ((some e).map endOfDay) sheets t := by
      simpa [applyFilter] using hu
    rw [hu', filterElem_isSelected none (some e) sheets t, hreg, hsheet]
    simp [dateMatchesSpec, show e ≤ e + 86399999 by omega]
  · intro e sheets t hreg u hu
    have hu' : u = filterElem none ((some e).map endOfDay) sheets t := by
      simpa [applyFilter] using hu
    rw [hu', filterElem_isSelected none (some e) sheets t, hreg]
    simp [dateMatchesSpec, show ¬ e + 86400000 ≤ e + 86399999 by omega]

/-- C5, witness: a task registered exactly at the `endDate` day-start instant
is selected by an end-bounded filter, and one registered exactly one day
later (a millisecond past end-of-day) is deselected. -/
theorem applyFilter_selection_spec_witness :
    samplePending.registrationDate = some 1700000000000
    ∧ (["Sheet1"] : List String).contains samplePending.sheet = true
    ∧ (filterElem none (some (endOfDay 1700000000000)) ["Sheet1"]
        samplePending).isSelected = true
    ∧ (filterElem none (some (endOfDay 1699913600000)) ["Sheet1"]
        samplePending).isSelected = false := by
  refine ⟨by decide, by decide, ?_, ?_⟩
  · exact applyFilter_selection_spec.2.1 1700000000000 ["Sheet1"] samplePending
      (by decide) (by decide) _ (List.mem_singleton.mpr rfl)
  · exact applyFilter_selection_spec.2.2 1699913600000 ["Sheet1"] samplePending
      (by decide) _ (List.mem_singleton.mpr rfl)

/-! ## C9 — the filter writes only `selected` -/

/-- C9, confirmed.  The filter recomputation maps each task to a record that
agrees with it on every field except possibly `selected`: `state`, `payload`,
`errorDetail`, the identity and all descriptive fields are unchanged, and the
collection keeps its length and order. -/
theorem applyFilter_frame (startMs endDayMs : Option Int)
    (sheets : List String) (tasks : List ImageTask) :
    List.Forall₂ (fun t u =>
        u.id = t.id ∧ u.sheet = t.sheet ∧ u.fullName = t.fullName
          ∧ u.url = t.url ∧ u.filename = t.filename
          ∧ u.registrationDate = t.registrationDate
          ∧ u.status = t.status ∧ u.error = t.error ∧ u.blob = t.blob)
      tasks (applyFilter startMs endDayMs sheets tasks) := by
  unfold applyFilter
  induction tasks with
  | nil => exact List.Forall₂.nil
  | cons t rest ih =>
      exact List.Forall₂.cons (by simp [filterElem]) ih

/-! ## C6 — `payload` iff completed, `errorDetail` iff failed -/

theorem downloadImage_taskInv (t : ImageTask) (f : FetchResult)
    (hinv : taskInv t) (hpend : t.status = Status.pending) :
    taskInv (downloadImage t f) := by
  obtain ⟨hblob, herr⟩ := hinv
  have hb : t.blob = none := by
    rcases hbv : t.blob with _ | b
    · rfl
    · have := hblob.mp (by simp [hbv])
      rw [hpend] at this
      exact absurd this (by decide)
  have he : t.error = none := by
    rcases hev : t.error with _ | e
    · rfl
    · have := herr.mp (by simp [hev])
      rw [hpend] at this
      exact absurd this (by decide)
  rcases f with msg | ⟨ok, code, bt, bs⟩
  · simp [downloadImage, taskInv, hb, he]
  · simp only [downloadImage]
    split_ifs <;> simp [taskInv, hb, he]

/-- C6, confirmed.  Task creation produces only invariant-satisfying records,
and the filter recomputation, per-task toggles, bulk select/deselect, and
recording a download outcome for a pending snapshot task all preserve:
`payload` is set iff `state == completed`, and `errorDetail` is set iff
`state == failed`. -/
theorem operations_preserve_taskInv :
    (∀ (sheetName : String) (now : Nat) (rows : List ExcelRow),
        ∀ t ∈ rowTasks sheetName now rows, taskInv t)
    ∧ (∀ (startMs endDayMs : Option Int) (sheets : List String)
        (tasks : List ImageTask), (∀ t ∈ tasks, taskInv t) →
        ∀ u ∈ applyFilter startMs endDayMs sheets tasks, taskInv u)
    ∧ (∀ (i : String) (tasks : List ImageTask), (∀ t ∈ tasks, taskInv t) →
        ∀ u ∈ toggleTask i tasks, taskInv u)
    ∧ (∀ (b : Bool) (tasks : List ImageTask), (∀ t ∈ tasks, taskInv t) →
        ∀ u ∈ toggleAllTasks b tasks, taskInv u)
    ∧ (∀ (t : ImageTask) (f : FetchResult), taskInv t →
        t.status = Status.pending → taskInv (downloadImage t f))
    ∧ (∀ (tasks : List ImageTask) (snap : ImageTask) (f : FetchResult),
        (∀ t ∈ tasks, taskInv t) → taskInv snap →
        snap.status = Status.pending →
        ∀ u ∈ recordOutcome snap (downloadImage snap f) tasks,
          taskInv u) := by
  refine ⟨?_, ?_, ?_, ?_, downloadImage_taskInv, ?_⟩
  · intro sheetName now rows t ht
    obtain ⟨p, _, hp⟩ := List.mem_filterMap.mp ht
    by_cases hc : (truthyCell p.2.fullName && truthyCell p.2.imageUrl) = true
    · rw [if_pos hc] at hp
      cases hp
      simp [taskInv, mkTask]
    · rw [if_neg hc] at hp
      cases hp
  · intro startMs endDayMs sheets tasks hall u hu
    obtain ⟨t, ht, rfl⟩ := List.mem_map.mp hu
    obtain ⟨hblob, herr⟩ := hall t ht
    exact ⟨by simpa [filterElem] using hblob, by simpa [filterElem] using herr⟩
  · intro i tasks hall u hu
    obtain ⟨t, ht, rfl⟩ := List.mem_map.mp hu
    obtain ⟨hblob, herr⟩ := hall t ht
    unfold elemToggle
    split_ifs
    · exact ⟨by simpa using hblob, by simpa using herr⟩
    · exact ⟨hblob, herr⟩
  · intro b tasks hall u hu
    obtain ⟨t, ht, rfl⟩ := List.mem_map.mp hu
    obtain ⟨hblob, herr⟩ := hall t ht
    exact ⟨by simpa using hblob, by simpa using herr⟩
  · intro tasks snap f hall hsnap hpend u hu
    obtain ⟨t, ht, rfl⟩ := List.mem_map.mp hu
    unfold elemRecord
    split_ifs
    · exact downloadImage_taskInv snap f hsnap hpend
    · exact hall t ht

/-- C6, witness: the invariant holds concretely across a creation, a filter
application, and a recorded successful download of a pending task. -/
theorem operations_preserve_taskInv_witness :
    taskInv (downloadImage samplePending
      (FetchResult.response true 200 "image/jpeg" 2048))
    ∧ (∀ u ∈ recordOutcome samplePending
        (downloadImage samplePending
          (FetchResult.response true 200 "image/jpeg" 2048))
        [samplePending, sampleFailed], taskInv u) := by
  constructor
  · exact operations_preserve_taskInv.2.2.2.2.1 samplePending
      (FetchResult.response true 200 "image/jpeg" 2048) (by decide) (by decide)
  · exact operations_preserve_taskInv.2.2.2.2.2
      [samplePending, sampleFailed] samplePending
      (FetchResult.response true 200 "image/jpeg" 2048)
      (by decide) (by decide) (by decide)

/-! ## C8 — export with nothing to export -/

/-- C8, confirmed.  With zero completed tasks the export fails with the
nothing-to-export condition, produces no archive, and the export handler
leaves the task collection exactly as it was. -/
theorem export_nothing_to_export (isoDay : Int → String)
    (tasks : List ImageTask)
    (h : (tasks.filter fun t =>
        decide (t.status = Status.completed)).length = 0) :
    generateZip isoDay tasks = Except.error "No images available to zip."
    ∧ exportAction isoDay tasks
        = (tasks, Except.error "No images available to zip.") := by
  have hz : (tasks.filter fun t =>
      decide (t.status = Status.completed) && t.blob.isSome).length = 0 := by
    have hmono := filter_length_mono
      (fun t => decide (t.status = Status.completed) && t.blob.isSome)
      (fun t => decide (t.status = Status.completed))
      (fun t ht => (Bool.and_eq_true _ _ |>.mp ht).1) tasks
    omega
  constructor
  · simp [generateZip, hz]
  · simp [exportAction, generateZip, hz]

/-- C8, witness: a collection holding one failed and one pending task (no
completed ones) makes the export fail and stay hands-off the collection. -/
theorem export_nothing_to_export_witness :
    generateZip (fun _ => "") [sampleFailed, samplePending]
      = Except.error "No images available to zip."
    ∧ exportAction (fun _ => "") [sampleFailed, samplePending]
      = ([sampleFailed, samplePending],
          Except.error "No images available to zip.") := by
  exact export_nothing_to_export (fun _ => "") [sampleFailed, samplePending]
    (by decide)

/-! ## Run-model lemmas shared by C2 and C10 -/

theorem downloadImage_id (t : ImageTask) (f : FetchResult) :
    (downloadImage t f).id = t.id := by
  rcases f with msg | ⟨ok, code, bt, bs⟩
  · rfl
  · simp only [downloadImage]
    split_ifs <;> rfl

theorem downloadImage_completed_or_failed (t : ImageTask) (f : FetchResult) :
    (downloadImage t f).status = Status.completed
      ∨ (downloadImage t f).status = Status.failed := by
  rcases f with msg | ⟨ok, code, bt, bs⟩
  · right; rfl
  · simp only [downloadImage]
    split_ifs <;> simp

theorem elemToggle_id (i : String) (t : ImageTask) :
    (elemToggle i t).id = t.id := by
  unfold elemToggle; split_ifs <;> rfl

theorem elemToggle_status (i : String) (t : ImageTask) :
    (elemToggle i t).status = t.status := by
  unfold elemToggle; split_ifs <;> rfl

theorem elemToggles_id (ids : List String) (t : ImageTask) :
    (elemToggles ids t).id = t.id := by
  induction ids generalizing t with
  | nil => rfl
  | cons i ids ih =>
      simp only [elemToggles, List.foldl_cons] at *
      rw [ih (elemToggle i t), elemToggle_id]

theorem elemToggles_status (ids : List String) (t : ImageTask) :
    (elemToggles ids t).status = t.status := by
  induction ids generalizing t with
  | nil => rfl
  | cons i ids ih =>
      simp only [elemToggles, List.foldl_cons] at *
      rw [ih (elemToggle i t), elemToggle_status]

theorem applyToggles_eq_map (ids : List String) (l : List ImageTask) :
    applyToggles ids l = l.map (elemToggles ids) := by
  induction ids generalizing l with
  | nil =>
      simp only [applyToggles, List.foldl_nil]
      exact (List.map_id l).symm
  | cons i ids ih =>
      simp only [applyToggles, List.foldl_cons] at *
      rw [show (toggleTask i l) = l.map (elemToggle i) from rfl, ih,
        List.map_map]
      rfl

theorem runAux_eq_map (oracle : ImageTask → FetchResult)
    (queue : List ImageTask) (schedule : List (List String))
    (curr : List ImageTask) :
    runAux oracle queue schedule curr
      = curr.map (elemRun oracle queue schedule) := by
  induction queue generalizing schedule curr with
  | nil =>
      simp only [runAux]
      exact (List.map_id curr).symm
  | cons snap rest ih =>
      simp only [runAux]
      rw [ih, show recordOutcome snap (downloadImage snap (oracle snap))
          (applyToggles (schedule.headD []) curr)
        = (applyToggles (schedule.headD []) curr).map
            (elemRecord snap (downloadImage snap (oracle snap))) from rfl,
        applyToggles_eq_map, List.map_map, List.map_map]
      rfl

theorem elemRun_id (oracle : ImageTask → FetchResult)
    (queue : List ImageTask) (schedule : List (List String))
    (t : ImageTask) :
    (elemRun oracle queue schedule t).id = t.id := by
  induction queue generalizing schedule t with
  | nil => rfl
  | cons snap rest ih =>
      simp only [elemRun]
      rw [ih]
      unfold elemRecord
      split_ifs with h
      · rw [downloadImage_id, ← h, elemToggles_id]
      · exact elemToggles_id _ _

theorem elemRun_status_of_not_mem (oracle : ImageTask → FetchResult)
    (queue : List ImageTask) (schedule : List (List String))
    (t : ImageTask) (h : t.id ∉ queue.map (·.id)) :
    (elemRun oracle queue schedule t).status = t.status := by
  induction queue generalizing schedule t with
  | nil => rfl
  | cons snap rest ih =>
      simp only [List.map_cons, List.mem_cons, not_or] at h
      simp only [elemRun]
      have hne : (elemToggles (schedule.headD []) t).id ≠ snap.id := by
        rw [elemToggles_id]; exact h.1
      rw [show elemRecord snap (downloadImage snap (oracle snap))
          (elemToggles (schedule.headD []) t)
        = elemToggles (schedule.headD []) t from if_neg hne]
      rw [ih _ _ (by rw [elemToggles_id]; exact h.2), elemToggles_status]

theorem elemRun_status_of_id_mem (oracle : ImageTask → FetchResult)
    (queue : List ImageTask) (schedule : List (List String))
    (x snap : ImageTask) (hmem : snap ∈ queue)
    (hnd : (queue.map (·.id)).Nodup) (hid : x.id = snap.id) :
    (elemRun oracle queue schedule x).status
      = (downloadImage snap (oracle snap)).status := by
  induction queue generalizing schedule x with
  | nil => cases hmem
  | cons q rest ih =>
      simp only [List.map_cons, List.nodup_cons] at hnd
      rcases List.mem_cons.mp hmem with rfl | hsnap
      · simp only [elemRun]
        have hxq : (elemToggles (schedule.headD []) x).id = snap.id := by
          rw [elemToggles_id]; exact hid
        rw [show elemRecord snap (downloadImage snap (oracle snap))
            (elemToggles (schedule.headD []) x)
          = downloadImage snap (oracle snap) from if_pos hxq]
        refine elemRun_status_of_not_mem oracle rest _ _ ?_
        rw [downloadImage_id]
        exact hnd.1
      · have hqx : q.id ≠ x.id := by
          intro hcontra
          apply hnd.1
          rw [hcontra, hid]
          exact List.mem_map.mpr ⟨snap, hsnap, rfl⟩
        simp only [elemRun]
        have hne : (elemToggles (schedule.headD []) x).id ≠ q.id := by
          rw [elemToggles_id]; exact fun hc => hqx hc.symm
        rw [show elemRecord q (downloadImage q (oracle q))
            (elemToggles (schedule.headD []) x)
          = elemToggles (schedule.headD []) x from if_neg hne]
        exact ih _ _ hsnap hnd.2 (by rw [elemToggles_id]; exact hid)

/-! ## C2 — the run processes exactly the start-of-run snapshot -/

theorem eligible_nodup_ids (tasks : List ImageTask)
    (hnd : (tasks.map (·.id)).Nodup) :
    ((eligible tasks).map (·.id)).Nodup :=
  List.Nodup.sublist (List.Sublist.map _ (List.filter_sublist tasks)) hnd

theorem not_eligible_id_not_mem (tasks : List ImageTask)
    (hnd : (tasks.map (·.id)).Nodup) (t : ImageTask) (ht : t ∈ tasks)
    (hne : ¬ (t.status = Status.pending ∧ t.isSelected = true)) :
    t.id ∉ (eligible tasks).map (·.id) := by
  intro hcontra
  obtain ⟨s, hs, hsid⟩ := List.mem_map.mp hcontra
  obtain ⟨hsmem, hspred⟩ := List.mem_filter.mp hs
  have : s = t := List.inj_on_of_nodup_map hnd hsmem ht hsid
  subst this
  rw [Bool.and_eq_true, decide_eq_true_iff] at hspred
  exact hne hspred

/-- C2, confirmed.  A batch run processes exactly the snapshot of tasks that
were pending and selected when it started: regardless of which selection
toggles arrive while it is in flight, the collection keeps its length and
ids; every snapshot task ends `completed` or `failed` (with the exact status
fixed by its own fetch outcome, so completed plus failed counts over the
snapshot equal the snapshot size); every task outside the snapshot keeps its
state; and the final statuses are identical under every toggle schedule, so a
`selected` change after the snapshot neither adds nor removes tasks from the
in-flight run. -/
theorem run_processes_snapshot_exactly (oracle : ImageTask → FetchResult)
    (tasks : List ImageTask) (schedule : List (List String))
    (hnd : (tasks.map (·.id)).Nodup) :
    (runWithToggles oracle tasks schedule).length = tasks.length
    ∧ (runWithToggles oracle tasks schedule).map (·.id) = tasks.map (·.id)
    ∧ (∀ t ∈ tasks, t.status = Status.pending ∧ t.isSelected = true →
        ∀ u ∈ runWithToggles oracle tasks schedule, u.id = t.id →
          u.status = (downloadImage t (oracle t)).status
            ∧ (u.status = Status.completed ∨ u.status = Status.failed))
    ∧ (∀ t ∈ tasks, ¬ (t.status = Status.pending ∧ t.isSelected = true) →
        ∀ u ∈ runWithToggles oracle tasks schedule, u.id = t.id →
          u.status = t.status)
    ∧ (∀ schedule₂ : List (List String),
        (runWithToggles oracle tasks schedule).map (·.status)
          = (runWithToggles oracle tasks schedule₂).map (·.status)) := by
  have hrw : ∀ sch : List (List String), runWithToggles oracle tasks sch
      = tasks.map (elemRun oracle (eligible tasks) sch) := fun sch =>
    runAux_eq_map oracle (eligible tasks) sch tasks
  have hqnd := eligible_nodup_ids tasks hnd
  refine ⟨?_, ?_, ?_, ?_, ?_⟩
  · rw [hrw]; exact List.length_map _ _
  · rw [hrw, List.map_map]
    exact List.map_congr_left fun a _ => elemRun_id oracle _ _ a
  · intro t ht hel u hu huid
    rw [hrw] at hu
    obtain ⟨a, ha, rfl⟩ := List.mem_map.mp hu
    have haid : a.id = t.id := by
      rw [← elemRun_id oracle (eligible tasks) schedule a]; exact huid
    have : a = t := List.inj_on_of_nodup_map hnd ha ht haid
    subst this
    have hmem : a ∈ eligible tasks := by
      refine List.mem_filter.mpr ⟨ht, ?_⟩
      rw [Bool.and_eq_true, decide_eq_true_iff]
      exact hel
    have hst := elemRun_status_of_id_mem oracle (eligible tasks) schedule
      a a hmem hqnd rfl
    exact ⟨hst, hst ▸ downloadImage_completed_or_failed a (oracle a)⟩
  · intro t ht hne u hu huid
    rw [hrw] at hu
    obtain ⟨a, ha, rfl⟩ := List.mem_map.mp hu
    have haid : a.id = t.id := by
      rw [← elemRun_id oracle (eligible tasks) schedule a]; exact huid
    have : a = t := List.inj_on_of_nodup_map hnd ha ht haid
    subst this
    exact elemRun_status_of_not_mem oracle _ _ _
      (not_eligible_id_not_mem tasks hnd a ha hne)
  · intro schedule₂
    rw [hrw, hrw, List.map_map, List.map_map]
    refine List.map_congr_left fun a ha => ?_
    by_cases hp : a.status = Status.pending ∧ a.isSelected = true
    · have hmem : a ∈ eligible tasks := by
        refine List.mem_filter.mpr ⟨ha, ?_⟩
        rw [Bool.and_eq_true, decide_eq_true_iff]
        exact hp
      show (elemRun oracle (eligible tasks) schedule a).status
        = (elemRun oracle (eligible tasks) schedule₂ a).status
      rw [elemRun_status_of_id_mem oracle _ schedule a a hmem hqnd rfl,
        elemRun_status_of_id_mem oracle _ schedule₂ a a hmem hqnd rfl]
    · have hnm := not_eligible_id_not_mem tasks hnd a ha hp
      show (elemRun oracle (eligible tasks) schedule a).status
        = (elemRun oracle (eligible tasks) schedule₂ a).status
      rw [elemRun_status_of_not_mem oracle _ _ _ hnm,
        elemRun_status_of_not_mem oracle _ _ _ hnm]

/-- C2, witness: a concrete two-task collection (one pending selected, one
failed) run with a mid-run toggle of the pending task: the collection keeps
its length and the pending snapshot task comes out completed. -/
theorem run_processes_snapshot_exactly_witness :
    (runWithToggles oracleW [samplePending, sampleFailed]
        [["Sheet1-1-0"]]).length = 2
    ∧ ((runWithToggles oracleW [samplePending, sampleFailed]
        [["Sheet1-1-0"]]).headD sampleFailed).status = Status.completed := by
  have h := run_processes_snapshot_exactly oracleW
    [samplePending, sampleFailed] [["Sheet1-1-0"]] (by decide)
  refine ⟨by rw [h.1]; rfl, ?_⟩
  have h3 := h.2.2.1 samplePending (by decide) (by decide)
    ((runWithToggles oracleW [samplePending, sampleFailed]
      [["Sheet1-1-0"]]).headD sampleFailed) (by decide) (by decide)
  rw [h3.1]
  decide

/-! ## C10 — outcome recording replaces the record from the snapshot copy -/

/-- C10, confirmed.  When the scheduler records a task's outcome, the stored
record becomes exactly the value derived from the start-of-run snapshot copy
(regardless of what the live collection held for that id at that moment), and
that value agrees with the snapshot on every field other than `state` and
`payload`/`errorDetail` — in particular on `selected`, so a user toggle made
while the fetch was in flight is overwritten back to the snapshot's value at
the moment the outcome is recorded. -/
theorem recordOutcome_overwrites_from_snapshot (curr : List ImageTask)
    (snap : ImageTask) (f : FetchResult) :
    (∀ u ∈ recordOutcome snap (downloadImage snap f) curr,
        u.id = snap.id → u = downloadImage snap f)
    ∧ (downloadImage snap f).isSelected = snap.isSelected
    ∧ (downloadImage snap f).id = snap.id
    ∧ (downloadImage snap f).sheet = snap.sheet
    ∧ (downloadImage snap f).fullName = snap.fullName
    ∧ (downloadImage snap f).url = snap.url
    ∧ (downloadImage snap f).filename = snap.filename
    ∧ (downloadImage snap f).registrationDate = snap.registrationDate := by
  refine ⟨?_, ?_, ?_, ?_, ?_, ?_, ?_, ?_⟩
  · intro u hu hid
    obtain ⟨t, ht, rfl⟩ := List.mem_map.mp hu
    by_cases h : t.id = snap.id
    · simp [elemRecord, h]
    · simp only [elemRecord, if_neg h] at hid
      exact absurd hid h
  all_goals
    rcases f with msg | ⟨ok, code, bt, bs⟩
  all_goals
    first
    | rfl
    | (simp only [downloadImage]; split_ifs <;> rfl)

/-- C10, witness: the pending snapshot task is toggled off mid-flight; when
its successful outcome is recorded, the stored record's `selected` flag is
back to the snapshot's `true`. -/
theorem recordOutcome_overwrites_witness :
    ({ samplePending with isSelected := false } : ImageTask).isSelected = false
    ∧ ((recordOutcome samplePending (downloadImage samplePending fetchOkW)
        [{ samplePending with isSelected := false }]).headD
          sampleFailed).isSelected = true := by
  have h := recordOutcome_overwrites_from_snapshot
    [{ samplePending with isSelected := false }] samplePending fetchOkW
  have h1 := h.1 ((recordOutcome samplePending
    (downloadImage samplePending fetchOkW)
    [{ samplePending with isSelected := false }]).headD sampleFailed)
    (by decide) (by decide)
  refine ⟨rfl, ?_⟩
  rw [h1, h.2.1]
  rfl

/-! ## C3 — bounded concurrency of the worker pool -/

theorem sched_workers_length (oracle : ImageTask → FetchResult) (k : Nat)
    (tasks : List ImageTask) (s : Sched)
    (h : SchedReachable oracle k tasks s) :
    s.workers.length = min k (eligible tasks).length := by
  induction h with
  | init => simp [initSched]
  | step hr hstep ih =>
      cases hstep with
      | dequeue j hj hidle t rest hq => simpa using ih
      | settle j hj t hfetch => simpa using ih
      | retire j hj hidle hq => simpa using ih

/-- C3, confirmed.  In every configuration a run can reach, the number of
fetches in flight never exceeds the concurrency bound `k` the run was
started with (the source's default bound being `MAX_CONCURRENT_DOWNLOADS =
10`), because only the `min k queue-length` spawned workers can each hold at
most one outstanding fetch; and an idle worker can always dequeue the next
task no matter what every sibling worker is doing, so a slow fetch on one
worker does not block the others. -/
theorem scheduler_bounded_concurrency (oracle : ImageTask → FetchResult)
    (k : Nat) (tasks : List ImageTask) (s : Sched)
    (h : SchedReachable oracle k tasks s) :
    MAX_CONCURRENT_DOWNLOADS = 10
    ∧ inFlight s ≤ k
    ∧ (∀ (j : Nat) (hj : j < s.workers.length),
        s.workers.get ⟨j, hj⟩ = WStatus.idle →
        ∀ (t : ImageTask) (rest : List ImageTask),
          s.remaining = t :: rest →
          SchedStep oracle s
            { remaining := rest
              workers := s.workers.set j (WStatus.fetching t)
              coll := s.coll }) := by
  refine ⟨rfl, ?_, ?_⟩
  · calc inFlight s ≤ s.workers.length := List.length_filter_le _ _
    _ = min k (eligible tasks).length := sched_workers_length oracle k tasks s h
    _ ≤ k := Nat.min_le_left _ _
  · intro j hj hidle t rest hq
    exact SchedStep.dequeue s j hj hidle t rest hq

/-- C3, witness: with bound 2 and five pending selected tasks, the state
reached after two dequeues has exactly two fetches in flight, and the bound
holds there and initially. -/
theorem scheduler_bounded_concurrency_witness :
    inFlight schedW2 = 2
    ∧ inFlight schedW2 ≤ 2
    ∧ inFlight (initSched 2 fiveTasks) ≤ 2 := by
  have hstep1 : SchedStep oracleW (initSched 2 fiveTasks) schedW1 :=
    SchedStep.dequeue (initSched 2 fiveTasks) 0 (by decide) (by decide)
      (pTask "p1") [pTask "p2", pTask "p3", pTask "p4", pTask "p5"]
      (by decide)
  have hstep2 : SchedStep oracleW schedW1 schedW2 :=
    SchedStep.dequeue schedW1 1 (by decide) (by decide)
      (pTask "p2") [pTask "p3", pTask "p4", pTask "p5"] (by decide)
  have hreach : SchedReachable oracleW 2 fiveTasks schedW2 :=
    SchedReachable.step (SchedReachable.step SchedReachable.init hstep1)
      hstep2
  exact ⟨by decide,
    (scheduler_bounded_concurrency oracleW 2 fiveTasks schedW2 hreach).2.1,
    (scheduler_bounded_concurrency oracleW 2 fiveTasks
      (initSched 2 fiveTasks) SchedReachable.init).2.1⟩
